import Mathlib

/-!
# Verification of the MapReduce worker core (`src/mr/worker.go`)

A shallow embedding of the worker-side execution engine: the partitioner
(`iHash`), the map executor (`doMapTask`), the reduce executor
(`doReduceTask`), the task loop (`Worker`) and the transport call (`call`).

Modelling conventions:
* Go strings / byte slices are modelled as `List Nat` of byte values
  (`h.Write([]byte(key))` operates on the UTF-8 bytes of the key).
* 32-bit unsigned arithmetic is modelled on `Nat` with explicit `% 2^32`.
* The on-disk JSON encoding produced by `encoding/json` is modelled as a
  token stream `List (Option KeyValue)`: `some kv` is one successfully
  decodable record, `none` is a position at which `dec.Decode` returns a
  non-nil error (a corrupt tail).  `json.Encoder` never fails on these
  records, so encoding is total and emits only `some` tokens.
* File-system effects are made explicit: the map executor returns the list
  of (file key, payload) commits it performs, the reduce executor receives
  the list of open results of the `NMap` intermediate files it opens
  (`none` = `os.Open` returned an error, which subsumes "does not exist").
* `log.Fatalf` / `log.Fatal` (process abort, task left unreported) is
  modelled as `Except.error`; a returned value is `Except.ok`.
* Go's `map[string][]string` is modelled as the function
  `Str → List Str` that the `append`-updates of the loop build; since Go
  map iteration order is unspecified, the emission loop is modelled as
  iterating over a canonical duplicate-free enumeration of the keys that
  occur in `kva` (no claim below depends on the iteration order).
-/

namespace MRWorker

/-- Go text (string or byte slice), as its byte sequence. -/
abbrev Str := List Nat

/-- The Go struct `KeyValue { Key string; Value string }`. -/
structure KeyValue where
  key : Str
  value : Str
deriving DecidableEq

/-- The running 32-bit FNV-1a state update performed by `h.Write` for one
byte: `hash ^= byte; hash *= 16777619` in `uint32` arithmetic. -/
def fnvStep (h b : Nat) : Nat := (Nat.xor h b) * 16777619 % 4294967296

/-- The hash `fnv.New32a()` after `h.Write(bytes)` and `h.Sum32()`:
offset basis 2166136261, one `fnvStep` per byte. -/
def fnv32a (bytes : Str) : Nat := bytes.foldl fnvStep 2166136261

/-- The function `iHash(key string) int`: the 32-bit FNV-1a hash of the key's bytes
with the sign bit masked off (`h.Sum32() & 0x7fffffff`). -/
def iHash (key : Str) : Nat := Nat.land (fnv32a key) 0x7fffffff

/-! ## Map executor -/

/-- One iteration of the bucket-routing loop of `doMapTask`:
`index := iHash(kv.Key) % NReduce;
 intermediates[index] = append(intermediates[index], kv)`. -/
def mapStep (nReduce : Nat) (buckets : List (List KeyValue)) (kv : KeyValue) :
    List (List KeyValue) :=
  let index := iHash kv.key % nReduce
  buckets.set index (buckets.getD index [] ++ [kv])

/-- The `intermediates` array after the routing loop of `doMapTask`:
start from `make([][]KeyValue, NReduce)` and fold `mapStep` over the
records returned by the map callback. -/
def buildBuckets (nReduce : Nat) (kva : List KeyValue) : List (List KeyValue) :=
  kva.foldl (mapStep nReduce) (List.replicate nReduce [])

/-- The token stream written by the per-bucket goroutine: one
`enc.Encode(&kv)` per record of the bucket, in bucket order. -/
def encodeRecords (bucket : List KeyValue) : List (Option KeyValue) :=
  bucket.map some

/-- Modelled from the spec: `generateMapResultFileName` is declared outside
the available sources; the spec requires only that an intermediate file's
name be a pure, collision-free function of (map task id, reduce partition
id), so the file key is modelled as that pair itself. -/
def generateMapResultFileName (mapId reduceId : Nat) : Nat × Nat :=
  (mapId, reduceId)

/-- The map executor `doMapTask`, as the list of durable commits it performs.
`readResult` is the outcome of `os.Open` + `ioutil.ReadAll` on the input
file (`none` = error, on which the worker aborts via `log.Fatalf`).
On success the callback's records are routed into `NReduce` buckets and
every bucket — empty or not — is committed under the key
`generateMapResultFileName(response.Id, index)` via `atomicWriteFile`. -/
def doMapTask (mapF : Str → Str → List KeyValue) (id nReduce : Nat)
    (filePath : Str) (readResult : Option Str) :
    Except String (List ((Nat × Nat) × List (Option KeyValue))) :=
  match readResult with
  | none => Except.error "cannot open"
  | some content =>
      let kva := mapF filePath content
      Except.ok ((buildBuckets nReduce kva).enum.map
        (fun p => (generateMapResultFileName id p.1, encodeRecords p.2)))

/-! ## Reduce executor -/

/-- The decode loop of `doReduceTask` on one opened file: `dec.Decode`
records until the first error (clean EOF or corruption), at which point the
loop `break`s — tokens after a `none` are never seen. -/
def readFileRecords : List (Option KeyValue) → List KeyValue
  | [] => []
  | none :: _ => []
  | some kv :: rest => kv :: readFileRecords rest

/-- The accumulation loop `for i := 0; i < response.NMap; i++` of
`doReduceTask`: open intermediate file `i` (entry `i` of `files`;
`none` = `os.Open` error, on which the worker aborts via `log.Fatalf`),
decode its records and append them to `kva` in ascending map-task order. -/
def readAllFiles : List (Option (List (Option KeyValue))) →
    Except String (List KeyValue)
  | [] => Except.ok []
  | none :: _ => Except.error "cannot open"
  | some f :: rest =>
      match readAllFiles rest with
      | Except.error e => Except.error e
      | Except.ok kva => Except.ok (readFileRecords f ++ kva)

/-- The grouping loop of `doReduceTask`, `results` as a map from key to its
appended value list: `results[kv.Key] = append(results[kv.Key], kv.Value)`
for each record of `kva` in order. -/
def buildResults (kva : List KeyValue) : Str → List Str :=
  kva.foldl
    (fun m kv => fun k => if k = kv.key then m k ++ [kv.value] else m k)
    (fun _ => [])

/-- The duplicate-free enumeration of the keys present in `results`
(the model's canonical stand-in for Go's unspecified map iteration
order). -/
def resultKeys (kva : List KeyValue) : List Str :=
  (kva.map (fun kv => kv.key)).dedup

/-- The (key, reduce output) pairs produced by the emission loop
`for key, values := range results { output := reduceF(key, values); ... }`. -/
def doReduceTaskPairs (reduceF : Str → List Str → Str)
    (files : List (Option (List (Option KeyValue)))) :
    Except String (List (Str × Str)) :=
  match readAllFiles files with
  | Except.error e => Except.error e
  | Except.ok kva =>
      Except.ok ((resultKeys kva).map
        (fun k => (k, reduceF k (buildResults kva k))))

/-- The buffer built by `fmt.Fprintf` over the
emission loop: each pair contributes the line `key` ++ `" "` ++ `output`
++ `"\n"` (bytes 32 and 10). -/
def outputLines (pairs : List (Str × Str)) : Str :=
  (pairs.map (fun p => p.1 ++ (32 :: p.2) ++ [10])).flatten

/-- Modelled from the spec: `generateReduceResultFileName` is declared
outside the available sources; the spec requires only that an output
file's name be a pure function of the reduce partition id. -/
def generateReduceResultFileName (reduceId : Nat) : Nat := reduceId

/-- The reduce executor `doReduceTask`, as the single durable commit it performs: the output
file key for this partition together with the formatted buffer, or the
fatal error raised while opening the intermediate files. -/
def doReduceTask (reduceF : Str → List Str → Str) (id : Nat)
    (files : List (Option (List (Option KeyValue)))) :
    Except String (Nat × Str) :=
  match doReduceTaskPairs reduceF files with
  | Except.error e => Except.error e
  | Except.ok pairs =>
      Except.ok (generateReduceResultFileName id, outputLines pairs)

/-! ## Task loop -/

/-- Modelled from the spec: the job-type constants (`MapJob`, `ReduceJob`,
`WaitJob`, `CompleteJob`) are declared outside the available sources;
`otherJob` stands for any value hitting the `default:` branch of the
`switch`. -/
inductive JobType
  | mapJob
  | reduceJob
  | waitJob
  | completeJob
  | otherJob
deriving DecidableEq

/-- Modelled from the spec: `HeartbeatResponse` is declared outside the
available sources; its fields follow the worker's uses — job type, input
file path (`Map` only), task id, reduce-partition count, map-task count. -/
structure HeartbeatResponse where
  jobType : JobType
  filePath : Str
  id : Nat
  nReduce : Nat
  nMap : Nat

/-- The observable actions of one iteration of the `Worker` loop. -/
inductive WorkerEvent
  | ranMapTask (id : Nat)
  | ranReduceTask (id : Nat)
  | slept
  | exited
  | panicked
deriving DecidableEq

/-- The `for { switch response.JobType { ... } }` loop of `Worker`, run
against a script of heartbeat responses, as its trace of events:
`MapJob`/`ReduceJob` dispatch to the executor and poll again, `WaitJob`
sleeps one fixed interval and polls again, `CompleteJob` returns,
anything else panics. -/
def workerLoop : List HeartbeatResponse → List WorkerEvent
  | [] => []
  | r :: rest =>
      match r.jobType with
      | JobType.mapJob => WorkerEvent.ranMapTask r.id :: workerLoop rest
      | JobType.reduceJob => WorkerEvent.ranReduceTask r.id :: workerLoop rest
      | JobType.waitJob => WorkerEvent.slept :: workerLoop rest
      | JobType.completeJob => [WorkerEvent.exited]
      | JobType.otherJob => [WorkerEvent.panicked]

/-! ## Transport -/

/-- The possible outcomes of one RPC attempt in `call`: `rpc.DialHTTP`
fails, or the dial succeeds and `c.Call` fails, or both succeed. -/
inductive CallOutcome
  | dialError
  | callError
  | success
deriving DecidableEq

/-- The transport `call(rpcName, args, reply) bool`: a dial error is fatal
(`log.Fatal("dialing:", err)`, modelled as `Except.error`); a `c.Call`
error is printed and `call` returns `false`; on success it returns
`true`. -/
def call : CallOutcome → Except String Bool
  | CallOutcome.dialError => Except.error "dialing"
  | CallOutcome.callError => Except.ok false
  | CallOutcome.success => Except.ok true

/-! ## Structural lemmas about the map executor -/

theorem length_foldl_mapStep (n : Nat) (kva : List KeyValue)
    (acc : List (List KeyValue)) :
    (kva.foldl (mapStep n) acc).length = acc.length := by
  induction kva generalizing acc with
  | nil => rfl
  | cons kv rest ih =>
      simp only [List.foldl_cons]
      rw [ih]
      simp [mapStep]

theorem buildBuckets_length (n : Nat) (kva : List KeyValue) :
    (buildBuckets n kva).length = n := by
  unfold buildBuckets
  rw [length_foldl_mapStep]
  simp

theorem foldl_mapStep_getElem? (n : Nat) (hn : 0 < n) (kva : List KeyValue) :
    ∀ (acc : List (List KeyValue)) (b : List KeyValue) (j : Nat),
      acc.length = n → acc[j]? = some b →
      (kva.foldl (mapStep n) acc)[j]?
        = some (b ++ kva.filter (fun kv => iHash kv.key % n == j)) := by
  induction kva with
  | nil =>
      intro acc b j _ hb
      simpa using hb
  | cons kv rest ih =>
      intro acc b j hacc hb
      have hidx : iHash kv.key % n < acc.length := by
        rw [hacc]; exact Nat.mod_lt _ hn
      simp only [List.foldl_cons]
      by_cases hcase : iHash kv.key % n = j
      · have hgetDj : acc.getD j [] = b := by
          rw [List.getD_eq_getElem?_getD, hb]
          rfl
        have hset : (mapStep n acc kv)[j]? = some (b ++ [kv]) := by
          simp only [mapStep]
          rw [List.getElem?_set, if_pos hcase, if_pos hidx, hcase, hgetDj]
        have := ih (mapStep n acc kv) (b ++ [kv]) j
          (by simp [mapStep, hacc]) hset
        rw [this, List.filter_cons]
        have hcond : (iHash kv.key % n == j) = true := beq_iff_eq.mpr hcase
        rw [if_pos hcond]
        simp
      · have hset : (mapStep n acc kv)[j]? = some b := by
          simp only [mapStep]
          rw [List.getElem?_set, if_neg hcase]
          exact hb
        have := ih (mapStep n acc kv) b j (by simp [mapStep, hacc]) hset
        rw [this, List.filter_cons]
        have hcond : (iHash kv.key % n == j) = false := beq_eq_false_iff_ne.mpr hcase
        rw [hcond]
        simp

theorem buildBuckets_getElem? (n : Nat) (hn : 0 < n) (kva : List KeyValue)
    (j : Nat) (hj : j < n) :
    (buildBuckets n kva)[j]?
      = some (kva.filter (fun kv => iHash kv.key % n == j)) := by
  have h0 : (List.replicate n ([] : List KeyValue))[j]? = some [] := by
    simp [List.getElem?_replicate, hj]
  have := foldl_mapStep_getElem? n hn kva (List.replicate n []) [] j
    (by simp) h0
  simpa [buildBuckets] using this

theorem buildBuckets_eq (n : Nat) (hn : 0 < n) (kva : List KeyValue) :
    buildBuckets n kva
      = (List.range n).map (fun j => kva.filter (fun kv => iHash kv.key % n == j)) := by
  apply List.ext_getElem?
  intro j
  by_cases hj : j < n
  · rw [buildBuckets_getElem? n hn kva j hj]
    rw [List.getElem?_map, List.getElem?_range hj]
    rfl
  · rw [List.getElem?_eq_none (by rw [buildBuckets_length]; omega)]
    rw [List.getElem?_eq_none (by simp; omega)]

/-- Serialization round trip: decoding a bucket's committed token stream
recovers the bucket exactly. -/
theorem readFileRecords_encodeRecords (bucket : List KeyValue) :
    readFileRecords (encodeRecords bucket) = bucket := by
  induction bucket with
  | nil => rfl
  | cons kv rest ih =>
      simp only [encodeRecords, List.map_cons, readFileRecords]
      rw [← encodeRecords, ih]

/-! ## Structural lemmas about the reduce executor -/

theorem readAllFiles_map_some (contents : List (List (Option KeyValue))) :
    readAllFiles (contents.map some)
      = Except.ok (contents.map readFileRecords).flatten := by
  induction contents with
  | nil => rfl
  | cons f rest ih =>
      simp only [List.map_cons, readAllFiles, ih, List.flatten_cons]

theorem readAllFiles_error_of_mem_none
    (files : List (Option (List (Option KeyValue)))) (h : none ∈ files) :
    readAllFiles files = Except.error "cannot open" := by
  induction files with
  | nil => cases h
  | cons f rest ih =>
      cases f with
      | none => rfl
      | some g =>
          have hrest : none ∈ rest := by
            rcases List.mem_cons.mp h with heq | hmem
            · exact absurd heq (by simp)
            · exact hmem
          simp only [readAllFiles, ih hrest]

/-- Decoding stops at the first decode error: everything after the first
`none` token is invisible to the reduce executor. -/
theorem readFileRecords_truncate (pre : List KeyValue)
    (junk : List (Option KeyValue)) :
    readFileRecords (pre.map some ++ none :: junk) = pre := by
  induction pre with
  | nil => rfl
  | cons kv rest ih =>
      simp only [List.map_cons, List.cons_append, readFileRecords, List.append_eq, ih]

theorem foldl_buildResults (kva : List KeyValue) :
    ∀ (m : Str → List Str) (k : Str),
      (kva.foldl
        (fun m kv => fun k => if k = kv.key then m k ++ [kv.value] else m k) m) k
        = m k ++ (kva.filter (fun kv => kv.key == k)).map (fun kv => kv.value) := by
  induction kva with
  | nil =>
      intro m k
      simp
  | cons kv rest ih =>
      intro m k
      simp only [List.foldl_cons, List.filter_cons]
      rw [ih]
      by_cases hk : k = kv.key
      · have hcond : (kv.key == k) = true := beq_iff_eq.mpr hk.symm
        rw [if_pos hk, hcond]
        simp
      · have hcond : (kv.key == k) = false :=
          beq_eq_false_iff_ne.mpr (fun h => hk h.symm)
        rw [if_neg hk, hcond]
        simp

/-- The Go-map grouping loop delivers, for each key, exactly the values of
that key in the order they were encountered in `kva`. -/
theorem buildResults_eq (kva : List KeyValue) (k : Str) :
    buildResults kva k
      = (kva.filter (fun kv => kv.key == k)).map (fun kv => kv.value) := by
  unfold buildResults
  rw [foldl_buildResults]
  simp

/-! ## Counting lemmas for the partition-completeness claim -/

theorem sum_map_range_single (c t n : Nat) (h : t < n) :
    ((List.range n).map (fun j => if t = j then c else 0)).sum = c := by
  induction n with
  | zero => omega
  | succ n ih =>
      rw [List.range_succ, List.map_append, List.sum_append]
      by_cases ht : t = n
      · subst ht
        have hz : (List.range t).map (fun j => if t = j then c else 0)
            = (List.range t).map (fun _ => 0) := by
          apply List.map_congr_left
          intro j hj
          have : j < t := List.mem_range.mp hj
          rw [if_neg (by omega)]
        rw [hz]
        simp
      · have ht' : t < n := by omega
        rw [ih ht']
        simp [ht]

theorem count_filter_bucket (kva : List KeyValue) (a : KeyValue) (n j : Nat) :
    (kva.filter (fun kv => iHash kv.key % n == j)).count a
      = if iHash a.key % n = j then kva.count a else 0 := by
  by_cases h : iHash a.key % n = j
  · rw [if_pos h]
    exact List.count_filter (beq_iff_eq.mpr h)
  · rw [if_neg h]
    rw [List.count_eq_zero]
    intro hmem
    rw [List.mem_filter] at hmem
    exact h (beq_iff_eq.mp hmem.2)

/-- Fanning the emitted records out over the `n` buckets loses and
duplicates nothing: the buckets' concatenation is a permutation of the
emitted record list. -/
theorem flatten_buckets_perm (n : Nat) (hn : 0 < n) (kva : List KeyValue) :
    ((List.range n).map
        (fun j => kva.filter (fun kv => iHash kv.key % n == j))).flatten.Perm
      kva := by
  rw [List.perm_iff_count]
  intro a
  rw [List.count_flatten, List.map_map]
  have hmap : (List.range n).map
        ((fun l => l.count a) ∘ (fun j => kva.filter (fun kv => iHash kv.key % n == j)))
      = (List.range n).map (fun j => if iHash a.key % n = j then kva.count a else 0) := by
    apply List.map_congr_left
    intro j _
    exact count_filter_bucket kva a n j
  rw [hmap, sum_map_range_single _ _ _ (Nat.mod_lt _ hn)]

/-! ## Claim C2 — partitioner range and determinism -/

/-- Claim C2: for every key `k` and partition count `N ≥ 1`, the partition
computed for `k` (the masked 32-bit FNV-1a hash of `k` reduced modulo `N`)
lies in `[0, N)`, and two computations with the same key and the same `N`
yield the same partition. -/
theorem partition_in_range_and_deterministic (k : Str) (n : Nat) (h : 1 ≤ n) :
    iHash k % n < n ∧
      ∀ k2 n2, k2 = k → n2 = n → iHash k2 % n2 = iHash k % n := by
  constructor
  · exact Nat.mod_lt _ h
  · intro k2 n2 hk hn
    rw [hk, hn]

/-- Claim C2 instantiated at the byte string "a" and `N = 3`. -/
theorem partition_in_range_and_deterministic_witness :
    iHash [97] % 3 < 3 ∧
      ∀ k2 n2, k2 = [97] → n2 = 3 → iHash k2 % n2 = iHash [97] % 3 :=
  partition_in_range_and_deterministic [97] 3 (by decide)

/-! ## Claim C4 — one commit per bucket, empty buckets included -/

/-- Claim C4: a map task with partition count `N` commits exactly `N`
intermediate files, the `j`-th keyed by (task id, bucket `j`); every empty
bucket — in particular every bucket of an empty input — still gets its
(empty) file. -/
theorem doMapTask_commits_n_files (mapF : Str → Str → List KeyValue)
    (id nReduce : Nat) (filePath content : Str) :
    ∃ commits,
      doMapTask mapF id nReduce filePath (some content) = Except.ok commits ∧
      commits.length = nReduce ∧
      ∀ j (hj : j < commits.length),
        (commits.get ⟨j, hj⟩).1 = generateMapResultFileName id j := by
  refine ⟨_, rfl, ?_, ?_⟩
  · simp [buildBuckets_length]
  · intro j hj
    simp [List.get_eq_getElem, List.getElem_map, List.getElem_enum]

/-- Claim C4 instantiated at an empty input file with `N = 2`: still two
commits, keyed by buckets 0 and 1. -/
theorem doMapTask_commits_n_files_witness :
    ∃ commits,
      doMapTask (fun _ _ => []) 7 2 [] (some []) = Except.ok commits ∧
      commits.length = 2 ∧
      ∀ j (hj : j < commits.length),
        (commits.get ⟨j, hj⟩).1 = generateMapResultFileName 7 j :=
  doMapTask_commits_n_files (fun _ _ => []) 7 2 [] []

/-! ## Claim C10 — bucket files preserve emission order -/

/-- Claim C10: the records serialized into bucket `j`'s intermediate file
are exactly the emitted sequence filtered to the keys hashing to bucket
`j`, in emission order. -/
theorem mapBucket_content_is_filtered_emission
    (mapF : Str → Str → List KeyValue) (id nReduce : Nat)
    (filePath content : Str) (j : Nat) (hn : 0 < nReduce) (hj : j < nReduce) :
    ∃ commits,
      doMapTask mapF id nReduce filePath (some content) = Except.ok commits ∧
      ∃ hlen : j < commits.length,
        readFileRecords (commits.get ⟨j, hlen⟩).2
          = (mapF filePath content).filter
              (fun kv => iHash kv.key % nReduce == j) := by
  have hjlen : j < (buildBuckets nReduce (mapF filePath content)).length := by
    rw [buildBuckets_length]; exact hj
  have hb := buildBuckets_getElem? nReduce hn (mapF filePath content) j hj
  rw [List.getElem?_eq_getElem hjlen] at hb
  have hbj := Option.some.inj hb
  refine ⟨_, rfl, ?_, ?_⟩
  · simp [buildBuckets_length, hj]
  · simp only [List.get_eq_getElem, List.getElem_map, List.getElem_enum]
    rw [readFileRecords_encodeRecords]
    exact hbj

/-- Claim C10 instantiated at the emission [("a","1"), ("b","1"), ("a","2")]
(byte strings) with `N = 2`, bucket 0. -/
theorem mapBucket_content_is_filtered_emission_witness :
    ∃ commits,
      doMapTask
          (fun _ _ => [⟨[97], [49]⟩, ⟨[98], [49]⟩, ⟨[97], [50]⟩]) 0 2 []
          (some [])
        = Except.ok commits ∧
      ∃ hlen : 0 < commits.length,
        readFileRecords (commits.get ⟨0, hlen⟩).2
          = ([⟨[97], [49]⟩, ⟨[98], [49]⟩, ⟨[97], [50]⟩] :
              List KeyValue).filter (fun kv => iHash kv.key % 2 == 0) :=
  mapBucket_content_is_filtered_emission
    (fun _ _ => [⟨[97], [49]⟩, ⟨[98], [49]⟩, ⟨[97], [50]⟩]) 0 2 [] [] 0
    (by decide) (by decide)

/-! ## Claim C3 — no record lost, none duplicated, unique bucket -/

/-- Claim C3: the multiset union of the `N` committed intermediate files of
one map task is exactly the emitted record multiset, and each emitted
record appears in a bucket's file exactly when that bucket is the
partition of its key. -/
theorem mapTask_no_loss_no_duplication (mapF : Str → Str → List KeyValue)
    (id nReduce : Nat) (filePath content : Str) (hn : 0 < nReduce) :
    ∃ commits,
      doMapTask mapF id nReduce filePath (some content) = Except.ok commits ∧
      (commits.map (fun c => readFileRecords c.2)).flatten.Perm
        (mapF filePath content) ∧
      ∀ kv ∈ mapF filePath content, ∀ j (hj : j < commits.length),
        (kv ∈ readFileRecords (commits.get ⟨j, hj⟩).2
          ↔ j = iHash kv.key % nReduce) := by
  refine ⟨_, rfl, ?_, ?_⟩
  · have h1 : ((buildBuckets nReduce (mapF filePath content)).enum.map
        (fun p => (generateMapResultFileName id p.1, encodeRecords p.2))).map
          (fun c => readFileRecords c.2)
        = buildBuckets nReduce (mapF filePath content) := by
      rw [List.map_map]
      have h2 : (buildBuckets nReduce (mapF filePath content)).enum.map
          ((fun c => readFileRecords c.2) ∘
            (fun p => (generateMapResultFileName id p.1, encodeRecords p.2)))
          = (buildBuckets nReduce (mapF filePath content)).enum.map
              (fun p => p.2) := by
        apply List.map_congr_left
        intro p _
        exact readFileRecords_encodeRecords p.2
      rw [h2, List.enum_map_snd]
    rw [h1, buildBuckets_eq nReduce hn]
    exact flatten_buckets_perm nReduce hn _
  · intro kv hkv j hj
    simp only [List.length_map, List.enum_length, buildBuckets_length] at hj
    have hjlen : j < (buildBuckets nReduce (mapF filePath content)).length := by
      rw [buildBuckets_length]; exact hj
    have hb := buildBuckets_getElem? nReduce hn (mapF filePath content) j hj
    rw [List.getElem?_eq_getElem hjlen] at hb
    have hbj := Option.some.inj hb
    simp only [List.get_eq_getElem, List.getElem_map, List.getElem_enum]
    rw [readFileRecords_encodeRecords, hbj, List.mem_filter]
    constructor
    · intro hmem
      exact (beq_iff_eq.mp hmem.2).symm
    · intro hje
      exact ⟨hkv, beq_iff_eq.mpr hje.symm⟩

/-- Claim C3 instantiated at the emission [("a","1"), ("b","1"), ("a","2")]
(byte strings) with `N = 2`. -/
theorem mapTask_no_loss_no_duplication_witness :
    ∃ commits,
      doMapTask
          (fun _ _ => [⟨[97], [49]⟩, ⟨[98], [49]⟩, ⟨[97], [50]⟩]) 1 2 []
          (some [])
        = Except.ok commits ∧
      (commits.map (fun c => readFileRecords c.2)).flatten.Perm
        [⟨[97], [49]⟩, ⟨[98], [49]⟩, ⟨[97], [50]⟩] ∧
      ∀ kv ∈ ([⟨[97], [49]⟩, ⟨[98], [49]⟩, ⟨[97], [50]⟩] : List KeyValue),
        ∀ j (hj : j < commits.length),
        (kv ∈ readFileRecords (commits.get ⟨j, hj⟩).2
          ↔ j = iHash kv.key % 2) :=
  mapTask_no_loss_no_duplication
    (fun _ _ => [⟨[97], [49]⟩, ⟨[98], [49]⟩, ⟨[97], [50]⟩]) 1 2 [] []
    (by decide)

/-! ## Claim C1 — missing intermediate file is NOT tolerated -/

/-- Claim C1 counterexample: at the concrete input where the single
intermediate file is missing (`os.Open` fails), the reduce executor aborts
with the fatal open error instead of completing, although with a present
zero-record file it would have completed and committed. -/
theorem reduce_missing_file_fatal_counterexample :
    doReduceTask (fun _ vs => vs.flatten) 0 [none]
        = Except.error "cannot open" ∧
      doReduceTask (fun _ vs => vs.flatten) 0 [some []]
        = Except.ok (0, []) := by
  exact ⟨rfl, rfl⟩

/-- Claim C1 amended: if any intermediate file of the partition cannot be
opened — in particular when it does not exist — the reduce executor aborts
fatally (`log.Fatalf`) without committing an output file, instead of
treating the file as contributing zero records. -/
theorem reduce_missing_file_is_fatal (reduceF : Str → List Str → Str)
    (id : Nat) (files : List (Option (List (Option KeyValue))))
    (h : none ∈ files) :
    doReduceTask reduceF id files = Except.error "cannot open" := by
  unfold doReduceTask doReduceTaskPairs
  rw [readAllFiles_error_of_mem_none files h]

/-- Claim C1 amended, instantiated at a present empty file followed by a
missing one. -/
theorem reduce_missing_file_is_fatal_witness :
    doReduceTask (fun _ vs => vs.flatten) 3 [some [], none]
      = Except.error "cannot open" :=
  reduce_missing_file_is_fatal (fun _ vs => vs.flatten) 3 [some [], none]
    (by simp)

/-! ## Claim C7 — decode errors are NOT fatal -/

/-- Claim C7 counterexample: at the concrete input whose single
intermediate file opens cleanly but holds a corrupt token between two
records, the reduce executor does not abort: it completes and commits an
output built from the first record only, the record after the corruption
silently dropped. -/
theorem reduce_decode_error_not_fatal_counterexample :
    doReduceTask (fun _ vs => vs.flatten) 0
        [some [some ⟨[97], [49]⟩, none, some ⟨[98], [50]⟩]]
      = Except.ok (0, [97, 32, 49, 10]) := by
  rfl

/-- A decodable prefix followed by a corrupt token reads as just the
prefix (`encodeRecords pre = pre.map some` definitionally). -/
theorem readFileRecords_map_some (pre : List KeyValue) :
    readFileRecords (pre.map some) = pre :=
  readFileRecords_encodeRecords pre

/-- Claim C7 amended: an open error on an intermediate file is fatal, but
a decode error on a successfully opened file is not: decoding of that file
stops at the first failing token, the rest of the file is ignored, and the
reduce task completes and commits as if the file ended there. -/
theorem reduce_decode_error_truncates (reduceF : Str → List Str → Str)
    (id : Nat) (pre : List KeyValue) (junk : List (Option KeyValue))
    (others : List (List (Option KeyValue))) :
    doReduceTask reduceF id
        (some (pre.map some ++ none :: junk) :: others.map some)
      = doReduceTask reduceF id
          (some (pre.map some) :: others.map some) ∧
    ∃ out, doReduceTask reduceF id
        (some (pre.map some ++ none :: junk) :: others.map some)
      = Except.ok out := by
  have h1 : readAllFiles
      (some (pre.map some ++ none :: junk) :: others.map some)
      = Except.ok (pre ++ (others.map readFileRecords).flatten) := by
    simp only [readAllFiles, readAllFiles_map_some, readFileRecords_truncate]
  have h2 : readAllFiles (some (pre.map some) :: others.map some)
      = Except.ok (pre ++ (others.map readFileRecords).flatten) := by
    simp only [readAllFiles, readAllFiles_map_some, readFileRecords_map_some]
  constructor
  · unfold doReduceTask doReduceTaskPairs
    rw [h1, h2]
  · unfold doReduceTask doReduceTaskPairs
    rw [h1]
    exact ⟨_, rfl⟩

/-! ## Claim C5 — output keys are the distinct accumulated keys -/

/-- Claim C5: the committed output file holds one line
`key ++ " " ++ output ++ "\n"` per pair, the pairs' keys are pairwise
distinct, and they are exactly the keys occurring among the records
accumulated from the partition's intermediate files. -/
theorem reduce_output_keys (reduceF : Str → List Str → Str) (id : Nat)
    (files : List (Option (List (Option KeyValue)))) (kva : List KeyValue)
    (pairs : List (Str × Str))
    (hread : readAllFiles files = Except.ok kva)
    (hpairs : doReduceTaskPairs reduceF files = Except.ok pairs) :
    (pairs.map Prod.fst).Nodup ∧
    (∀ k, k ∈ pairs.map Prod.fst ↔ ∃ kv ∈ kva, kv.key = k) ∧
    doReduceTask reduceF id files
      = Except.ok (generateReduceResultFileName id,
          (pairs.map (fun p => p.1 ++ (32 :: p.2) ++ [10])).flatten) := by
  have hp : pairs = (resultKeys kva).map
      (fun k => (k, reduceF k (buildResults kva k))) := by
    unfold doReduceTaskPairs at hpairs
    rw [hread] at hpairs
    exact (Except.ok.inj hpairs).symm
  have hfst : pairs.map Prod.fst = resultKeys kva := by
    rw [hp, List.map_map]
    exact List.map_id _
  refine ⟨?_, ?_, ?_⟩
  · rw [hfst]
    exact List.nodup_dedup _
  · intro k
    rw [hfst]
    unfold resultKeys
    rw [List.mem_dedup, List.mem_map]
  · unfold doReduceTask
    rw [hpairs]
    rfl

/-- Claim C5 instantiated at two intermediate files holding
[("a","1"), ("b","1")] and [("a","2")] (byte strings). -/
theorem reduce_output_keys_witness :
    (([([98], [49]), ([97], [49, 50])] :
        List (Str × Str)).map Prod.fst).Nodup ∧
    (∀ k, k ∈ ([([98], [49]), ([97], [49, 50])] :
        List (Str × Str)).map Prod.fst
      ↔ ∃ kv ∈ ([⟨[97], [49]⟩, ⟨[98], [49]⟩, ⟨[97], [50]⟩] : List KeyValue),
          kv.key = k) ∧
    doReduceTask (fun _ vs => vs.flatten) 5
        [some (encodeRecords [⟨[97], [49]⟩, ⟨[98], [49]⟩]),
          some (encodeRecords [⟨[97], [50]⟩])]
      = Except.ok (generateReduceResultFileName 5,
          (([([98], [49]), ([97], [49, 50])] :
              List (Str × Str)).map
            (fun p => p.1 ++ (32 :: p.2) ++ [10])).flatten) :=
  reduce_output_keys (fun _ vs => vs.flatten) 5
    [some (encodeRecords [⟨[97], [49]⟩, ⟨[98], [49]⟩]),
      some (encodeRecords [⟨[97], [50]⟩])]
    [⟨[97], [49]⟩, ⟨[98], [49]⟩, ⟨[97], [50]⟩]
    [([98], [49]), ([97], [49, 50])] rfl rfl

/-! ## Claim C6 — per-key value order follows the ascending traversal -/

/-- Claim C6: the reduce callback for each emitted key receives that key's
values exactly in the order they occur in the concatenation of the M
intermediate sources, traversed in ascending map-task-id order. -/
theorem reduce_values_in_encounter_order (reduceF : Str → List Str → Str)
    (contents : List (List (Option KeyValue))) (pairs : List (Str × Str))
    (h : doReduceTaskPairs reduceF (contents.map some) = Except.ok pairs) :
    ∀ p ∈ pairs,
      p.2 = reduceF p.1
        (((contents.map readFileRecords).flatten.filter
            (fun kv => kv.key == p.1)).map (fun kv => kv.value)) := by
  unfold doReduceTaskPairs at h
  rw [readAllFiles_map_some] at h
  have hp := (Except.ok.inj h).symm
  intro p hmem
  rw [hp, List.mem_map] at hmem
  obtain ⟨k, _, hk⟩ := hmem
  rw [← hk]
  simp only
  rw [buildResults_eq]

/-- Claim C6 instantiated at two intermediate files holding
[("a","1"), ("b","1")] and [("a","2")] (byte strings); in particular key
"a" receives ["1", "2"] in file order. -/
theorem reduce_values_in_encounter_order_witness :
    (([97], [49, 50]) : Str × Str).2
      = (fun (_ : Str) (vs : List Str) => vs.flatten)
          (([97], [49, 50]) : Str × Str).1
          ((([[some ⟨[97], [49]⟩, some ⟨[98], [49]⟩],
                [some ⟨[97], [50]⟩]].map readFileRecords).flatten.filter
              (fun kv => kv.key == (([97], [49, 50]) : Str × Str).1)).map
            (fun kv => kv.value)) :=
  reduce_values_in_encounter_order
    (fun _ vs => vs.flatten)
    [[some ⟨[97], [49]⟩, some ⟨[98], [49]⟩], [some ⟨[97], [50]⟩]]
    [([98], [49]), ([97], [49, 50])] rfl
    ([97], [49, 50]) (by decide)

/-! ## Claim C8 — remote-call errors are NOT fatal -/

/-- Claim C8 counterexample: at the concrete outcome where the dial
succeeds but the remote call fails, `call` is not fatal: the error is
printed and `call` returns `false`, the worker continuing with the
zero-valued reply. -/
theorem call_remote_error_not_fatal_counterexample :
    call CallOutcome.callError = Except.ok false := rfl

/-- Claim C8 amended: a connection (dial) error is fatal for the worker
process, but a remote-call error is not: `call` prints it and returns
`false`, leaving the worker to continue with the zero-valued reply. -/
theorem call_error_semantics :
    call CallOutcome.dialError = Except.error "dialing" ∧
      call CallOutcome.callError = Except.ok false ∧
      call CallOutcome.success = Except.ok true :=
  ⟨rfl, rfl, rfl⟩

/-! ## Claim C9 — two Wait responses mean two sleeps -/

/-- Claim C9 counterexample: on the script Wait, Wait, Done the loop
sleeps twice — one fixed interval per Wait response — not once, before
terminating. -/
theorem worker_wait_wait_done_sleeps_twice :
    workerLoop
        [⟨JobType.waitJob, [], 0, 0, 0⟩, ⟨JobType.waitJob, [], 0, 0, 0⟩,
          ⟨JobType.completeJob, [], 0, 0, 0⟩]
      = [WorkerEvent.slept, WorkerEvent.slept, WorkerEvent.exited] ∧
    (workerLoop
        [⟨JobType.waitJob, [], 0, 0, 0⟩, ⟨JobType.waitJob, [], 0, 0, 0⟩,
          ⟨JobType.completeJob, [], 0, 0, 0⟩]).count WorkerEvent.slept
      ≠ 1 := by
  exact ⟨rfl, by decide⟩

/-- Claim C9 amended: on a script of two Wait responses followed by Done,
the loop sleeps once per Wait response — twice in total — and then
terminates without invoking the map or reduce executor. -/
theorem worker_wait_wait_done (r1 r2 r3 : HeartbeatResponse)
    (h1 : r1.jobType = JobType.waitJob) (h2 : r2.jobType = JobType.waitJob)
    (h3 : r3.jobType = JobType.completeJob) :
    workerLoop [r1, r2, r3]
      = [WorkerEvent.slept, WorkerEvent.slept, WorkerEvent.exited] := by
  simp [workerLoop, h1, h2, h3]

/-- Claim C9 amended, instantiated at concrete Wait, Wait, Done
responses. -/
theorem worker_wait_wait_done_witness :
    workerLoop
        [⟨JobType.waitJob, [1], 1, 1, 1⟩, ⟨JobType.waitJob, [2], 2, 2, 2⟩,
          ⟨JobType.completeJob, [3], 3, 3, 3⟩]
      = [WorkerEvent.slept, WorkerEvent.slept, WorkerEvent.exited] :=
  worker_wait_wait_done _ _ _ rfl rfl rfl

end MRWorker
